import Mathlib

/-!
# Shallow embedding of the Polymarket copy-trading bot core

Embeds the trade-mirroring decision engine of the repository:
`src/copyTrader.ts` (CopyTrader: computeSize, clampToLimits, clampToPosition,
handleTrade, runOnce), `src/state.ts` (State, ensureDailyVolume,
noteSeenTrade), `src/utils.ts` (toBaseUnits, isPositive), `src/clob.ts`
(ClobService.placeLimitOrder) and `src/redeem.ts`
(RedeemService.redeemPositions, buildNegRiskAmounts).

Modelling conventions:
* JavaScript `number` values that carry prices / sizes / USD notionals are
  modelled as `ℚ` (exact arithmetic); timestamps are `ℕ`.
* Where the source relies on the NaN / ±Infinity cases of `number`
  (`Number.isFinite` in `toBaseUnits`), a dedicated type `JsNum` with
  explicit non-finite values is used.
* JavaScript objects used as string-keyed maps (`seenTrades`, `lastSeen`,
  `byCondition`, `traderAllocations`) are association lists in insertion
  order, with assignment replacing an existing key in place (as JS does).
* JS truthiness tests on numbers (`if (this.state.seenTrades[tradeKey])`,
  `lastSeen[trader] || 0`, `last ? last + 1 : ...`) are modelled faithfully:
  a present value `0` is falsy.
* External collaborators (data API, CLOB client, relayer) are oracles:
  `handleTrade` receives the cached position list and a `ClobEnv` holding
  the market metadata and the venue's response to a posted order.
-/

namespace Bot

/-- Association-list lookup (JS `obj[key]`). -/
def lookupA {α β : Type} [DecidableEq α] (l : List (α × β)) (k : α) : Option β :=
  (l.find? (fun e => e.1 = k)).map (·.2)

/-- Association-list assignment (JS `obj[key] = v`): replaces the first
occurrence of the key in place, otherwise appends (insertion order). -/
def setA {α β : Type} [DecidableEq α] (l : List (α × β)) (k : α) (v : β) :
    List (α × β) :=
  match l with
  | [] => [(k, v)]
  | e :: rest => if e.1 = k then (k, v) :: rest else e :: setA rest k v

/-- JS truthiness of an optional numeric field: absent or `0` is falsy. -/
def truthyNat (v : Option ℕ) : Bool :=
  match v with
  | some n => n ≠ 0
  | none => false

/-! ## src/utils.ts -/

/-- `isPositive` from `src/utils.ts`: `Number.isFinite(n) && n > 0`.
On the exact-rational model finiteness is automatic. -/
def isPositive (n : ℚ) : Bool := 0 < n

/-- A JavaScript `number`, with the non-finite values explicit. -/
inductive JsNum : Type
  | nan : JsNum
  | inf : JsNum
  | negInf : JsNum
  | finite (q : ℚ) : JsNum
deriving DecidableEq, Repr

/-- `Number.isFinite`. -/
def JsNum.isFinite : JsNum → Bool
  | .finite _ => true
  | _ => false

/-- JS `Math.round` on a finite value: round half toward +∞. -/
def jsRound (q : ℚ) : ℤ := ⌊q + 1 / 2⌋

/-- `toBaseUnits` from `src/utils.ts`:
`if (!Number.isFinite(amount)) return 0n;`
`return BigInt(Math.max(0, Math.round(amount * 10 ** decimals)))`. -/
def toBaseUnits (amount : JsNum) (decimals : ℕ) : ℤ :=
  if ¬ amount.isFinite then 0
  else match amount with
    | .finite q => max 0 (jsRound (q * 10 ^ decimals))
    | _ => 0

/-! ## src/types.ts -/

/-- A trade side (`TradeSide` in `src/types.ts`, `Side` of the CLOB client). -/
inductive Side : Type
  | BUY : Side
  | SELL : Side
deriving DecidableEq, Repr

/-- `ActivityTrade` from `src/types.ts` (the fields the engine reads). -/
structure ActivityTrade : Type where
  proxyWallet : String
  timestamp : ℕ
  conditionId : String
  size : ℚ
  usdcSize : ℚ
  transactionHash : String
  price : ℚ
  asset : String
  side : Side
  outcomeIndex : ℕ
deriving DecidableEq, Repr

/-- `Position` from `src/types.ts`. Optional boolean flags are modelled with
default `false` (JS truthiness of `undefined`). -/
structure Position : Type where
  conditionId : String
  asset : String
  outcomeIndex : ℕ
  size : ℚ
  avgPrice : Option ℚ
  curPrice : Option ℚ
  redeemable : Bool
  negativeRisk : Bool
deriving DecidableEq, Repr

/-- The trade fingerprint. `CopyTrader.tradeKey` builds the string
`hash:asset:side:size:price`; since the join is unambiguous on these
components the key is modelled as the component tuple itself. -/
structure Fingerprint : Type where
  transactionHash : String
  asset : String
  side : Side
  size : ℚ
  price : ℚ
deriving DecidableEq, Repr

/-! ## src/state.ts -/

/-- The `dailyVolume` record of `State`. -/
structure DailyVolume : Type where
  day : String
  spentUsd : ℚ
deriving DecidableEq, Repr

/-- `State` from `src/state.ts` (`seenTrades` keyed by the fingerprint). -/
structure State : Type where
  lastSeen : List (String × ℕ)
  seenTrades : List (Fingerprint × ℕ)
  dailyVolume : DailyVolume
  redeemAttempts : List (String × ℕ)
deriving DecidableEq, Repr

/-- `defaultState` from `src/state.ts`. -/
def defaultState : State :=
  { lastSeen := [], seenTrades := [], dailyVolume := ⟨"", 0⟩,
    redeemAttempts := [] }

/-- `ensureDailyVolume` from `src/state.ts`, the current UTC day key passed
explicitly: if the stored day differs from the key, reset the counter. -/
def ensureDailyVolume (s : State) (key : String) : State :=
  if s.dailyVolume.day ≠ key then { s with dailyVolume := ⟨key, 0⟩ } else s

/-- `noteSeenTrade` from `src/state.ts`. -/
def noteSeenTrade (s : State) (tradeKey : Fingerprint) (timestamp : ℕ) :
    State :=
  { s with seenTrades := setA s.seenTrades tradeKey timestamp }

/-! ## src/config.ts (the fields the engine reads) -/

/-- `CopyStrategy` from `src/config.ts`. -/
inductive CopyStrategy : Type
  | PERCENT_USD : CopyStrategy
  | PERCENT_SHARES : CopyStrategy
  | FIXED_USD : CopyStrategy
  | FIXED_SHARES : CopyStrategy
deriving DecidableEq, Repr

/-- `CopySide` from `src/config.ts`. -/
inductive CopySide : Type
  | BUY : CopySide
  | SELL : CopySide
  | BOTH : CopySide
deriving DecidableEq, Repr

/-- The part of `Config` the decision engine reads. -/
structure Config : Type where
  traderAllocations : List (String × ℚ)
  copyStrategy : CopyStrategy
  copyRatio : ℚ
  fixedUsd : ℚ
  fixedShares : ℚ
  minTradeUsd : ℚ
  maxTradeUsd : ℚ
  maxDailyVolumeUsd : ℚ
  maxPositionSizeUsd : ℚ
  copySide : CopySide
  tradeLookbackSec : ℕ
  dryRun : Bool
deriving DecidableEq, Repr

/-! ## src/clob.ts -/

/-- The market metadata `placeLimitOrder` reads (`getMarketMeta`). The tick
size only affects the submitted price (`roundToTick`), which no claim
concerns, so it is not carried. -/
structure MarketMeta : Type where
  minOrderSize : ℚ
  negRisk : Bool
deriving DecidableEq, Repr

/-- Oracle for the external CLOB client: the market metadata, and the result
of `createAndPostOrder` should an order be posted (`.error` collects every
throwing path: a thrown request error, `resp.error`, `resp.status >= 400`). -/
structure ClobEnv : Type where
  meta : MarketMeta
  post : Except String Unit
deriving Repr

/-- `ClobService.placeLimitOrder` from `src/clob.ts`: returns early (no order
posted) when the size is below the market's minimum; otherwise posts and
propagates a venue failure. The `Bool` records whether an order was posted. -/
def placeLimitOrder (env : ClobEnv) (size : ℚ) : Except String Bool :=
  if size < env.meta.minOrderSize then .ok false
  else match env.post with
    | .ok _ => .ok true
    | .error m => .error m

/-! ## src/copyTrader.ts — CopyTrader -/

/-- A sized candidate: the `{ size, notional }` pairs of `computeSize` and
the clamp stages. -/
structure Sized : Type where
  size : ℚ
  notional : ℚ
deriving DecidableEq, Repr

/-- `CopyTrader.tradeKey`. -/
def tradeKey (trade : ActivityTrade) : Fingerprint :=
  ⟨trade.transactionHash, trade.asset, trade.side, trade.size, trade.price⟩

/-- `CopyTrader.effectiveRatio`:
`this.config.traderAllocations[trader] ?? this.config.copyRatio`. -/
def effectiveRatio (cfg : Config) (trader : String) : ℚ :=
  (lookupA cfg.traderAllocations trader).getD cfg.copyRatio

/-- `CopyTrader.computeSize`. -/
def computeSize (cfg : Config) (trade : ActivityTrade) : Option Sized :=
  let price := trade.price
  if ¬ isPositive price then none
  else
    let ratio := effectiveRatio cfg trade.proxyWallet.toLower
    let sn : Sized :=
      match cfg.copyStrategy with
      | .PERCENT_USD =>
        let notional := trade.usdcSize * ratio
        ⟨notional / price, notional⟩
      | .PERCENT_SHARES =>
        let size := trade.size * ratio
        ⟨size, size * price⟩
      | .FIXED_USD =>
        let notional := cfg.fixedUsd
        ⟨notional / price, notional⟩
      | .FIXED_SHARES =>
        let size := cfg.fixedShares
        ⟨size, size * price⟩
    if ¬ isPositive sn.size ∨ ¬ isPositive sn.notional then none
    else some sn

/-- The trade-bound part of `CopyTrader.clampToLimits`: the minimum check and
the shrink to the configured maximum, with the positivity re-check. -/
def tradeBoundStage (cfg : Config) (size notional price : ℚ) : Option Sized :=
  if notional < cfg.minTradeUsd then none
  else
    let sn : Sized :=
      if notional > cfg.maxTradeUsd then
        ⟨cfg.maxTradeUsd / price, cfg.maxTradeUsd⟩
      else ⟨size, notional⟩
    if ¬ isPositive sn.size ∨ ¬ isPositive sn.notional then none
    else some sn

/-- The daily-volume part of `CopyTrader.clampToLimits` (the
`side === Side.BUY` block): a SELL candidate passes through untouched. -/
def dailyVolumeStage (cfg : Config) (s : State) (dayKey : String)
    (side : Side) (sn : Sized) (price : ℚ) : Option Sized × State :=
  match side with
  | .SELL => (some sn, s)
  | .BUY =>
    let s' := ensureDailyVolume s dayKey
    let remaining := cfg.maxDailyVolumeUsd - s'.dailyVolume.spentUsd
    if remaining ≤ 0 then (none, s')
    else if sn.notional > remaining then
      let notional := remaining
      let size := notional / price
      if notional < cfg.minTradeUsd then (none, s')
      else (some ⟨size, notional⟩, s')
    else (some sn, s')

/-- `CopyTrader.clampToLimits`, the current UTC day key passed explicitly
(the source reads the wall clock inside `ensureDailyVolume`). -/
def clampToLimits (cfg : Config) (s : State) (dayKey : String) (side : Side)
    (size notional price : ℚ) : Option Sized × State :=
  if notional < cfg.minTradeUsd then (none, s)
  else
    let sn : Sized :=
      if notional > cfg.maxTradeUsd then
        ⟨cfg.maxTradeUsd / price, cfg.maxTradeUsd⟩
      else ⟨size, notional⟩
    if ¬ isPositive sn.size ∨ ¬ isPositive sn.notional then (none, s)
    else match side with
    | .SELL => (some sn, s)
    | .BUY =>
      let s' := ensureDailyVolume s dayKey
      let remaining := cfg.maxDailyVolumeUsd - s'.dailyVolume.spentUsd
      if remaining ≤ 0 then (none, s')
      else if sn.notional > remaining then
        let notional := remaining
        let size := notional / price
        if notional < cfg.minTradeUsd then (none, s')
        else (some ⟨size, notional⟩, s')
      else (some sn, s')

/-- `PositionCache.getPositionByToken` on the cached list:
`positions.find((p) => p.asset === tokenId)`. -/
def getPositionByToken (ps : List Position) (tokenId : String) :
    Option Position :=
  ps.find? (fun p => p.asset = tokenId)

/-- `CopyTrader.clampToPosition`, the cached position list passed
explicitly. -/
def clampToPosition (cfg : Config) (ps : List Position) (side : Side)
    (tokenId : String) (size notional price : ℚ) : Option Sized :=
  match side with
  | .BUY =>
    let position := getPositionByToken ps tokenId
    let priceHint :=
      match position with
      | some p => p.curPrice.getD (p.avgPrice.getD price)
      | none => price
    let currentValue :=
      match position with
      | some p => priceHint * p.size
      | none => 0
    let remaining := cfg.maxPositionSizeUsd - currentValue
    if remaining ≤ 0 then none
    else if notional > remaining then
      let notional2 := remaining
      let size2 := notional2 / price
      if notional2 < cfg.minTradeUsd then none
      else some ⟨size2, notional2⟩
    else some ⟨size, notional⟩
  | .SELL =>
    match getPositionByToken ps tokenId with
    | none => none
    | some position =>
      if position.size ≤ 0 then none
      else if size > position.size then
        let size2 := position.size
        let notional2 := size2 * price
        if notional2 < cfg.minTradeUsd then none
        else some ⟨size2, notional2⟩
      else some ⟨size, notional⟩

/-- `CopyTrader.shouldCopySide`. -/
def shouldCopySide (cfg : Config) (trade : ActivityTrade) : Bool :=
  match cfg.copySide, trade.side with
  | .BOTH, _ => true
  | .BUY, .BUY => true
  | .SELL, .SELL => true
  | _, _ => false

/-- The terminal branch `handleTrade` ends in (for stating which branch ran;
the source logs instead). `orderPlaced posted` is the non-throwing
`placeLimitOrder` return, `posted = false` being its below-minimum early
return. -/
inductive Outcome : Type
  | filtered : Outcome
  | alreadySeen : Outcome
  | unsizeable : Outcome
  | limitsRejected : Outcome
  | positionRejected : Outcome
  | dryRunLogged : Outcome
  | orderPlaced (posted : Bool) : Outcome
  | orderFailed (msg : String) : Outcome
deriving DecidableEq, Repr

/-- `CopyTrader.handleTrade`. The dedup check is the JS truthiness test
`if (this.state.seenTrades[tradeKey])`. The success branch adds the clamped
notional to the daily counter for BUY only; the catch branch does not touch
it; `noteSeenTrade` runs in the `finally` of both. -/
def handleTrade (cfg : Config) (env : ClobEnv) (ps : List Position)
    (dayKey : String) (s : State) (trade : ActivityTrade) : State × Outcome :=
  if ¬ shouldCopySide cfg trade then (s, .filtered)
  else
    let key := tradeKey trade
    if truthyNat (lookupA s.seenTrades key) then (s, .alreadySeen)
    else match computeSize cfg trade with
    | none => (noteSeenTrade s key trade.timestamp, .unsizeable)
    | some computed =>
      let side := trade.side
      match clampToLimits cfg s dayKey side computed.size computed.notional
          trade.price with
      | (none, s1) => (noteSeenTrade s1 key trade.timestamp, .limitsRejected)
      | (some clamped, s1) =>
        match clampToPosition cfg ps side trade.asset clamped.size
            clamped.notional trade.price with
        | none => (noteSeenTrade s1 key trade.timestamp, .positionRejected)
        | some posClamped =>
          if cfg.dryRun then
            (noteSeenTrade s1 key trade.timestamp, .dryRunLogged)
          else match placeLimitOrder env posClamped.size with
          | .ok posted =>
            let s2 :=
              if side = Side.BUY then
                let se := ensureDailyVolume s1 dayKey
                let dv : DailyVolume :=
                  ⟨se.dailyVolume.day,
                    se.dailyVolume.spentUsd + posClamped.notional⟩
                { se with dailyVolume := dv }
              else s1
            (noteSeenTrade s2 key trade.timestamp, .orderPlaced posted)
          | .error m => (noteSeenTrade s1 key trade.timestamp, .orderFailed m)

/-- The cursor update of `CopyTrader.runOnce`:
`this.state.lastSeen[trader] = Math.max(this.state.lastSeen[trader] || 0,
trade.timestamp)`. -/
def updateCursor (s : State) (trader : String) (ts : ℕ) : State :=
  let v := max ((lookupA s.lastSeen trader).getD 0) ts
  { s with lastSeen := setA s.lastSeen trader v }

/-- The per-trader trade loop of `CopyTrader.runOnce`: handle each trade in
arrival order, updating the cursor after each. -/
def processBatch (cfg : Config) (env : ClobEnv) (ps : List Position)
    (dayKey : String) (s : State) (trader : String)
    (trades : List ActivityTrade) : State :=
  trades.foldl
    (fun acc trade =>
      updateCursor (handleTrade cfg env ps dayKey acc trade).1 trader
        trade.timestamp)
    s

/-- The poll lower bound of `CopyTrader.runOnce`:
`const last = this.state.lastSeen[trader];`
`const start = last ? last + 1 : now - this.config.tradeLookbackSec;`
(JS truthiness: a stored cursor of `0` takes the lookback branch). -/
def pollStart (s : State) (trader : String) (now lookback : ℕ) : ℤ :=
  match lookupA s.lastSeen trader with
  | some last => if last ≠ 0 then (last : ℤ) + 1 else (now : ℤ) - lookback
  | none => (now : ℤ) - lookback

/-! ## src/redeem.ts — RedeemService -/

/-- A settlement instruction: `createCtfRedeem` (standard, outcome-index
agnostic — index sets `[1, 2]` fixed) or `createNegRiskRedeem`
(combinatorial, with per-outcome base-unit amounts). -/
inductive RedeemTx : Type
  | ctf (conditionId : String) : RedeemTx
  | negRisk (conditionId : String) (amounts : List ℤ) : RedeemTx
deriving DecidableEq, Repr

/-- The market a settlement instruction targets. -/
def RedeemTx.conditionId : RedeemTx → String
  | .ctf c => c
  | .negRisk c _ => c

/-- `RedeemService.buildNegRiskAmounts`: bucket outcome index 0 and every
other index separately (`pos.outcomeIndex === 0 ? 0 : 1`), each size
converted to 6-decimal base units. -/
def buildNegRiskAmounts (group : List Position) : List ℤ :=
  let a :=
    group.foldl
      (fun (a : ℤ × ℤ) pos =>
        if pos.outcomeIndex = 0 then
          (a.1 + toBaseUnits (.finite pos.size) 6, a.2)
        else (a.1, a.2 + toBaseUnits (.finite pos.size) 6))
      (0, 0)
  [a.1, a.2]

/-- The grouping loop of `RedeemService.redeemPositions`: skip positions not
flagged redeemable, bucket the rest by condition id in first-occurrence
order. -/
def groupByCondition (positions : List Position) :
    List (String × List Position) :=
  positions.foldl
    (fun acc pos =>
      if pos.redeemable then
        match lookupA acc pos.conditionId with
        | some g => setA acc pos.conditionId (g ++ [pos])
        | none => acc ++ [(pos.conditionId, [pos])]
      else acc)
    []

/-- `RedeemService.redeemPositions`, as the list of settlement instructions
built (one per group; each is then submitted via the relayer oracle): a
group with any negative-risk-flagged member gets one combinatorial
instruction, any other group one standard instruction. -/
def redeemPositions (positions : List Position) : List RedeemTx :=
  (groupByCondition positions).map
    (fun g =>
      if g.2.any (·.negativeRisk) then
        RedeemTx.negRisk g.1 (buildNegRiskAmounts g.2)
      else RedeemTx.ctf g.1)

/-! ## Derived notions used by the statements -/

/-- The maximum trade timestamp of a batch (`0` for an empty batch). -/
def batchMaxTs (trades : List ActivityTrade) : ℕ :=
  (trades.map (·.timestamp)).foldr max 0

/-- The redeemable positions of a given market, in input order — the group
`groupByCondition` collects under that condition id. -/
def groupOf (positions : List Position) (c : String) : List Position :=
  positions.filter (fun p => p.redeemable && decide (p.conditionId = c))

/-! ## Concrete fixtures (for scenario clauses, witnesses and
counterexamples) -/

/-- A `PERCENT_USD` configuration with global ratio `0.25`, per-trade bounds
`[1, 1000]`, daily cap `200`, position cap `500`, both sides copied. -/
def cfgPct : Config :=
  { traderAllocations := [], copyStrategy := .PERCENT_USD, copyRatio := 1/4,
    fixedUsd := 10, fixedShares := 1, minTradeUsd := 1, maxTradeUsd := 1000,
    maxDailyVolumeUsd := 200, maxPositionSizeUsd := 500, copySide := .BOTH,
    tradeLookbackSec := 300, dryRun := false }

/-- `cfgPct` restricted to copying SELL trades only. -/
def cfgSellOnly : Config := { cfgPct with copySide := .SELL }

/-- `cfgPct` with daily cap `30` and trade minimum `10`. -/
def cfgDailyMin10 : Config :=
  { cfgPct with maxDailyVolumeUsd := 30, minTradeUsd := 10 }

/-- `cfgPct` with daily cap `30` and trade minimum `1`. -/
def cfgDailyMin1 : Config :=
  { cfgPct with maxDailyVolumeUsd := 30, minTradeUsd := 1 }

/-- The spec's sizing scenario: BUY trade with price `0.40`, size `100`,
notional `40`. -/
def tradeScn : ActivityTrade :=
  { proxyWallet := "0xa", timestamp := 100, conditionId := "c", size := 100,
    usdcSize := 40, transactionHash := "h", price := 2/5, asset := "tok",
    side := .BUY, outcomeIndex := 0 }

/-- A held position of size `50` in token `"tok"`. -/
def heldPos : Position :=
  { conditionId := "c", asset := "tok", outcomeIndex := 0, size := 50,
    avgPrice := none, curPrice := none, redeemable := false,
    negativeRisk := false }

/-- Negative-risk redeemable position, outcome index 0, size 10. -/
def negPos0 : Position :=
  { conditionId := "c", asset := "t1", outcomeIndex := 0, size := 10,
    avgPrice := none, curPrice := none, redeemable := true,
    negativeRisk := true }

/-- Negative-risk redeemable position, outcome index 1, size 5. -/
def negPos1 : Position :=
  { conditionId := "c", asset := "t2", outcomeIndex := 1, size := 5,
    avgPrice := none, curPrice := none, redeemable := true,
    negativeRisk := true }

/-- A venue that accepts any order, with no minimum order size. -/
def envOk : ClobEnv := ⟨⟨0, false⟩, .ok ()⟩

/-- A venue that rejects every posted order with a balance error. -/
def envFail : ClobEnv := ⟨⟨0, false⟩, .error "not enough balance"⟩

/-- A venue whose market has a minimum order size of `1000`. -/
def envMinSz : ClobEnv := ⟨⟨1000, false⟩, .ok ()⟩

/-- `defaultState` after `25` USD of BUY spend on day `"d"`. -/
def stateSpent25 : State := { defaultState with dailyVolume := ⟨"d", 25⟩ }

/-- `defaultState` with the daily counter already on day `"d"`. -/
def stateDayD : State := { defaultState with dailyVolume := ⟨"d", 0⟩ }

/-- A state holding a cursor of value `0` for trader `"t"`. -/
def stateCursorZero : State := { defaultState with lastSeen := [("t", 0)] }

/-! ## Association-list lemmas -/

theorem isPositive_eq_true {n : ℚ} : isPositive n = true ↔ 0 < n := by
  simp [isPositive]

theorem lookupA_cons {α β : Type} [DecidableEq α] (e : α × β)
    (l : List (α × β)) (k : α) :
    lookupA (e :: l) k = if e.1 = k then some e.2 else lookupA l k := by
  by_cases h : e.1 = k <;> simp [lookupA, List.find?_cons, h]

theorem lookupA_setA_self {α β : Type} [DecidableEq α] (l : List (α × β))
    (k : α) (v : β) : lookupA (setA l k v) k = some v := by
  induction l with
  | nil => simp [setA, lookupA_cons]
  | cons e rest ih =>
    by_cases h : e.1 = k
    · simp [setA, h, lookupA_cons]
    · simp [setA, h, lookupA_cons, ih]

theorem lookupA_setA_ne {α β : Type} [DecidableEq α] {l : List (α × β)}
    {k k' : α} (v : β) (h : k' ≠ k) :
    lookupA (setA l k v) k' = lookupA l k' := by
  have hk : k ≠ k' := Ne.symm h
  induction l with
  | nil => simp [setA, lookupA_cons, hk, lookupA]
  | cons e rest ih =>
    by_cases he : e.1 = k
    · subst he
      simp [setA, lookupA_cons, hk]
    · simp [setA, he, lookupA_cons, ih]

theorem lookupA_eq_none_iff {α β : Type} [DecidableEq α]
    {l : List (α × β)} {k : α} :
    lookupA l k = none ↔ k ∉ l.map Prod.fst := by
  induction l with
  | nil => simp [lookupA]
  | cons e rest ih =>
    rw [lookupA_cons]
    by_cases h : e.1 = k
    · simp [h]
    · simp only [h, if_false, ih, List.map_cons, List.mem_cons]
      constructor
      · rintro hn (rfl | hm)
        · exact h rfl
        · exact hn hm
      · intro hn hm
        exact hn (Or.inr hm)

theorem setA_of_lookupA_none {α β : Type} [DecidableEq α]
    {l : List (α × β)} {k : α} (v : β) (h : lookupA l k = none) :
    setA l k v = l ++ [(k, v)] := by
  induction l with
  | nil => rfl
  | cons e rest ih =>
    rw [lookupA_cons] at h
    by_cases he : e.1 = k
    · simp [he] at h
    · simp [he] at h
      simp [setA, he, ih h]

theorem lookupA_append_of_none {α β : Type} [DecidableEq α]
    {l l' : List (α × β)} {k : α} (h : lookupA l k = none) :
    lookupA (l ++ l') k = lookupA l' k := by
  induction l with
  | nil => rfl
  | cons e rest ih =>
    rw [lookupA_cons] at h
    by_cases he : e.1 = k
    · simp [he] at h
    · simp [he] at h
      simp [lookupA_cons, he, ih h]

theorem lookupA_append_of_some {α β : Type} [DecidableEq α]
    {l l' : List (α × β)} {k : α} {v : β} (h : lookupA l k = some v) :
    lookupA (l ++ l') k = some v := by
  induction l with
  | nil => simp [lookupA] at h
  | cons e rest ih =>
    rw [lookupA_cons] at h
    by_cases he : e.1 = k
    · simp [he] at h
      simp [lookupA_cons, he, h]
    · simp [he] at h
      simp [lookupA_cons, he, ih h]

theorem map_fst_setA {α β : Type} [DecidableEq α] {l : List (α × β)}
    {k : α} (v : β) (h : k ∈ l.map Prod.fst) :
    (setA l k v).map Prod.fst = l.map Prod.fst := by
  induction l with
  | nil => simp at h
  | cons e rest ih =>
    by_cases he : e.1 = k
    · simp [setA, he]
    · simp [he, eq_comm] at h
      rcases h with h | h
      · exact absurd h (by simpa [eq_comm] using he)
      · simp [setA, he, ih (by simpa using h)]

theorem countP_key_of_lookupA_none {α β : Type} [DecidableEq α]
    {l : List (α × β)} {k : α} (h : lookupA l k = none) :
    l.countP (fun e => decide (e.1 = k)) = 0 := by
  rw [lookupA_eq_none_iff] at h
  rw [List.countP_eq_zero]
  intro e he
  simp only [decide_eq_true_eq]
  intro hk
  exact h (by simpa [hk] using List.mem_map_of_mem Prod.fst he)

theorem countP_key_setA_of_none {α β : Type} [DecidableEq α]
    {l : List (α × β)} {k : α} (v : β) (h : lookupA l k = none) :
    (setA l k v).countP (fun e => decide (e.1 = k)) = 1 := by
  rw [setA_of_lookupA_none v h, List.countP_append,
    countP_key_of_lookupA_none h]
  simp

/-! ## State-component lemmas -/

theorem ensureDailyVolume_seenTrades (s : State) (k : String) :
    (ensureDailyVolume s k).seenTrades = s.seenTrades := by
  unfold ensureDailyVolume
  split <;> rfl

theorem ensureDailyVolume_lastSeen (s : State) (k : String) :
    (ensureDailyVolume s k).lastSeen = s.lastSeen := by
  unfold ensureDailyVolume
  split <;> rfl

theorem ensureDailyVolume_day (s : State) (k : String) :
    (ensureDailyVolume s k).dailyVolume.day = k ∨
    (ensureDailyVolume s k = s ∧ s.dailyVolume.day = k) := by
  unfold ensureDailyVolume
  split
  · left; rfl
  · right
    next h => exact ⟨rfl, not_not.mp h⟩

/-! ## Clamp-pipeline structure lemmas -/

theorem clampToLimits_of_tradeBound_none (cfg : Config) (s : State)
    (day : String) (side : Side) {sz n p : ℚ}
    (h : tradeBoundStage cfg sz n p = none) :
    clampToLimits cfg s day side sz n p = (none, s) := by
  unfold tradeBoundStage at h
  dsimp only at h
  cases side <;>
    (unfold clampToLimits; dsimp only;
      split_ifs at h ⊢ <;> first | rfl | exact absurd h (by simp))

theorem clampToLimits_of_tradeBound_some (cfg : Config) (s : State)
    (day : String) (side : Side) {sz n p : ℚ} {sn : Sized}
    (h : tradeBoundStage cfg sz n p = some sn) :
    clampToLimits cfg s day side sz n p =
      dailyVolumeStage cfg s day side sn p := by
  unfold tradeBoundStage at h
  dsimp only at h
  cases side <;>
    (unfold clampToLimits dailyVolumeStage; dsimp only;
      split_ifs at h ⊢ <;>
        first
          | exact Option.noConfusion h
          | ((obtain rfl := Option.some.inj h; dsimp only at *) <;>
              first | rfl | (exfalso; linarith)))

theorem clampToLimits_decomp (cfg : Config) (s : State) (day : String)
    (side : Side) (sz n p : ℚ) :
    clampToLimits cfg s day side sz n p =
      match tradeBoundStage cfg sz n p with
      | none => (none, s)
      | some sn => dailyVolumeStage cfg s day side sn p := by
  rcases h : tradeBoundStage cfg sz n p with _ | sn
  · exact clampToLimits_of_tradeBound_none cfg s day side h
  · exact clampToLimits_of_tradeBound_some cfg s day side h

theorem dailyVolumeStage_snd (cfg : Config) (s : State) (day : String)
    (side : Side) (sn : Sized) (p : ℚ) :
    (dailyVolumeStage cfg s day side sn p).2 = s ∨
    (dailyVolumeStage cfg s day side sn p).2 = ensureDailyVolume s day := by
  cases side with
  | SELL => left; rfl
  | BUY =>
    right
    simp only [dailyVolumeStage]
    split_ifs <;> rfl

theorem clampToLimits_snd (cfg : Config) (s : State) (day : String)
    (side : Side) (sz n p : ℚ) :
    (clampToLimits cfg s day side sz n p).2 = s ∨
    (clampToLimits cfg s day side sz n p).2 = ensureDailyVolume s day := by
  rw [clampToLimits_decomp]
  cases tradeBoundStage cfg sz n p with
  | none => left; rfl
  | some sn => exact dailyVolumeStage_snd cfg s day side sn p

theorem clampToLimits_snd_seenTrades (cfg : Config) (s : State) (day : String)
    (side : Side) (sz n p : ℚ) :
    ((clampToLimits cfg s day side sz n p).2).seenTrades = s.seenTrades := by
  rcases clampToLimits_snd cfg s day side sz n p with h | h <;> rw [h]
  exact ensureDailyVolume_seenTrades s day

theorem clampToLimits_snd_lastSeen (cfg : Config) (s : State) (day : String)
    (side : Side) (sz n p : ℚ) :
    ((clampToLimits cfg s day side sz n p).2).lastSeen = s.lastSeen := by
  rcases clampToLimits_snd cfg s day side sz n p with h | h <;> rw [h]
  exact ensureDailyVolume_lastSeen s day

/-! ## handleTrade branch lemmas -/

theorem handleTrade_seenTrades (cfg : Config) (env : ClobEnv)
    (ps : List Position) (day : String) (s : State) (trade : ActivityTrade)
    (h1 : shouldCopySide cfg trade = true)
    (h2 : truthyNat (lookupA s.seenTrades (tradeKey trade)) = false) :
    (handleTrade cfg env ps day s trade).1.seenTrades
      = setA s.seenTrades (tradeKey trade) trade.timestamp := by
  unfold handleTrade
  simp only [h1, h2, not_true, Bool.false_eq_true, if_false, ite_false]
  rcases hc : computeSize cfg trade with _ | computed
  · simp [noteSeenTrade]
  · rcases hcl : clampToLimits cfg s day trade.side computed.size
        computed.notional trade.price with ⟨copt, s1⟩
    have hs1 : s1.seenTrades = s.seenTrades := by
      have h := clampToLimits_snd_seenTrades cfg s day trade.side
        computed.size computed.notional trade.price
      rw [hcl] at h
      exact h
    cases copt with
    | none => simp [hcl, noteSeenTrade, hs1]
    | some clamped =>
      rcases hcp : clampToPosition cfg ps trade.side trade.asset clamped.size
          clamped.notional trade.price with _ | posC
      · simp [hcl, hcp, noteSeenTrade, hs1]
      · by_cases hd : cfg.dryRun
        · simp [hcl, hcp, hd, noteSeenTrade, hs1]
        · rcases hpl : placeLimitOrder env posC.size with m | posted
          · simp [hcl, hcp, hd, hpl, noteSeenTrade, hs1]
          · simp only [hcl, hcp, hpl]
            simp [hd, noteSeenTrade]
            split_ifs <;> simp [ensureDailyVolume_seenTrades, hs1]

theorem handleTrade_lastSeen (cfg : Config) (env : ClobEnv)
    (ps : List Position) (day : String) (s : State) (trade : ActivityTrade) :
    (handleTrade cfg env ps day s trade).1.lastSeen = s.lastSeen := by
  unfold handleTrade
  by_cases h1 : shouldCopySide cfg trade
  · simp only [h1, not_true, if_false, ite_false]
    by_cases h2 : truthyNat (lookupA s.seenTrades (tradeKey trade))
    · simp [h2]
    · simp only [h2, Bool.false_eq_true, if_false, ite_false]
      rcases hc : computeSize cfg trade with _ | computed
      · simp [noteSeenTrade]
      · rcases hcl : clampToLimits cfg s day trade.side computed.size
            computed.notional trade.price with ⟨copt, s1⟩
        have hs1 : s1.lastSeen = s.lastSeen := by
          have h := clampToLimits_snd_lastSeen cfg s day trade.side
            computed.size computed.notional trade.price
          rw [hcl] at h
          exact h
        cases copt with
        | none => simp [hcl, noteSeenTrade, hs1]
        | some clamped =>
          rcases hcp : clampToPosition cfg ps trade.side trade.asset
              clamped.size clamped.notional trade.price with _ | posC
          · simp [hcl, hcp, noteSeenTrade, hs1]
          · by_cases hd : cfg.dryRun
            · simp [hcl, hcp, hd, noteSeenTrade, hs1]
            · rcases hpl : placeLimitOrder env posC.size with m | posted
              · simp [hcl, hcp, hd, hpl, noteSeenTrade, hs1]
              · simp only [hcl, hcp, hpl]
                simp [hd, noteSeenTrade]
                split_ifs <;> simp [ensureDailyVolume_lastSeen, hs1]
  · simp [h1]

/-! ## Cursor lemmas -/

theorem lookupA_updateCursor_self (s : State) (trader : String) (ts : ℕ) :
    lookupA (updateCursor s trader ts).lastSeen trader
      = some (max ((lookupA s.lastSeen trader).getD 0) ts) := by
  unfold updateCursor
  exact lookupA_setA_self _ _ _

theorem processBatch_cons (cfg : Config) (env : ClobEnv) (ps : List Position)
    (day : String) (s : State) (trader : String) (t : ActivityTrade)
    (rest : List ActivityTrade) :
    processBatch cfg env ps day s trader (t :: rest)
      = processBatch cfg env ps day
          (updateCursor (handleTrade cfg env ps day s t).1 trader t.timestamp)
          trader rest := rfl

theorem processBatch_cursor (cfg : Config) (env : ClobEnv)
    (ps : List Position) (day : String) (trader : String) :
    ∀ (trades : List ActivityTrade), trades ≠ [] → ∀ (s : State),
      lookupA (processBatch cfg env ps day s trader trades).lastSeen trader
        = some (max ((lookupA s.lastSeen trader).getD 0)
            (batchMaxTs trades)) := by
  intro trades
  induction trades with
  | nil => intro h; exact absurd rfl h
  | cons t rest ih =>
    intro _ s
    rw [processBatch_cons]
    by_cases hr : rest = []
    · subst hr
      show lookupA (updateCursor (handleTrade cfg env ps day s t).1 trader
          t.timestamp).lastSeen trader = _
      rw [lookupA_updateCursor_self, handleTrade_lastSeen]
      simp [batchMaxTs]
    · rw [ih hr]
      rw [lookupA_updateCursor_self, handleTrade_lastSeen]
      simp only [Option.getD_some, batchMaxTs, List.map_cons, List.foldr_cons]
      rw [max_assoc]

/-! ## Redemption-grouping lemmas -/

theorem lookupA_mem {α β : Type} [DecidableEq α] {l : List (α × β)} {k : α}
    {v : β} (h : lookupA l k = some v) : (k, v) ∈ l := by
  induction l with
  | nil => simp [lookupA] at h
  | cons e rest ih =>
    rw [lookupA_cons] at h
    by_cases he : e.1 = k
    · simp only [he, if_pos] at h
      obtain rfl := Option.some.inj h
      subst he
      exact List.mem_cons_self e rest
    · simp only [he, if_neg, if_false] at h
      exact List.mem_cons_of_mem _ (ih h)

theorem groupBy_aux (ps : List Position) :
    ∀ (acc : List (String × List Position)) (c : String),
      lookupA
        (ps.foldl
          (fun acc pos =>
            if pos.redeemable then
              match lookupA acc pos.conditionId with
              | some g => setA acc pos.conditionId (g ++ [pos])
              | none => acc ++ [(pos.conditionId, [pos])]
            else acc)
          acc) c
        = (match lookupA acc c, groupOf ps c with
          | none, [] => none
          | none, g => some g
          | some g0, g => some (g0 ++ g)) := by
  induction ps with
  | nil =>
    intro acc c
    rcases h : lookupA acc c with _ | g0 <;> simp [groupOf, h]
  | cons p rest ih =>
    intro acc c
    rw [List.foldl_cons]
    try dsimp only
    by_cases hred : p.redeemable
    · rw [if_pos hred]
      rcases h : lookupA acc p.conditionId with _ | g0
      · try dsimp only
        rw [ih]
        by_cases hcond : p.conditionId = c
        · subst hcond
          rw [lookupA_append_of_none h, h]
          have h1 : lookupA [(p.conditionId, [p])] p.conditionId
              = some [p] := by
            simp [lookupA_cons]
          rw [h1]
          simp only [groupOf, List.filter_cons, hred, decide_True,
            Bool.true_and, decide_eq_true_eq]
          rcases groupOf rest p.conditionId with _ | ⟨q, gs⟩ <;>
            simp [groupOf]
        · have hgo : groupOf (p :: rest) c = groupOf rest c := by
            simp [groupOf, List.filter_cons, hcond]
          rw [hgo]
          rcases h2 : lookupA acc c with _ | g0
          · rw [lookupA_append_of_none h2]
            have h3 : lookupA [(p.conditionId, [p])] c = none := by
              simp [lookupA_cons, hcond, lookupA]
            rw [h3]
          · rw [lookupA_append_of_some h2]
      · try dsimp only
        rw [ih]
        by_cases hcond : p.conditionId = c
        · subst hcond
          rw [lookupA_setA_self, h]
          simp only [groupOf, List.filter_cons, hred, decide_True,
            Bool.true_and, decide_eq_true_eq]
          rcases groupOf rest p.conditionId with _ | ⟨q, gs⟩ <;>
            simp [groupOf]
        · rw [lookupA_setA_ne _ (fun hh => hcond hh.symm)]
          have hgo : groupOf (p :: rest) c = groupOf rest c := by
            simp [groupOf, List.filter_cons, hcond]
          rw [hgo]
    · rw [if_neg hred]
      rw [ih]
      have hgo : groupOf (p :: rest) c = groupOf rest c := by
        simp [groupOf, List.filter_cons, hred]
      rw [hgo]

theorem lookupA_groupByCondition (ps : List Position) (c : String) :
    lookupA (groupByCondition ps) c =
      if groupOf ps c = [] then none else some (groupOf ps c) := by
  have h := groupBy_aux ps [] c
  unfold groupByCondition
  rw [h]
  have h0 : lookupA ([] : List (String × List Position)) c = none := rfl
  rw [h0]
  rcases groupOf ps c with _ | ⟨q, gs⟩ <;> simp

theorem groupBy_aux_keys (ps : List Position) :
    ∀ acc : List (String × List Position),
      (acc.map Prod.fst).Nodup →
      (((ps.foldl
        (fun acc pos =>
          if pos.redeemable then
            match lookupA acc pos.conditionId with
            | some g => setA acc pos.conditionId (g ++ [pos])
            | none => acc ++ [(pos.conditionId, [pos])]
          else acc)
        acc)).map Prod.fst).Nodup := by
  induction ps with
  | nil => intro acc h; exact h
  | cons p rest ih =>
    intro acc h
    rw [List.foldl_cons]
    by_cases hred : p.redeemable
    · rw [if_pos hred]
      rcases hl : lookupA acc p.conditionId with _ | g0
      · try dsimp only
        apply ih
        rw [lookupA_eq_none_iff] at hl
        rw [List.map_append]
        simp [List.nodup_append, h, hl]
      · try dsimp only
        apply ih
        have hmem : p.conditionId ∈ acc.map Prod.fst := by
          by_contra hmem
          rw [← lookupA_eq_none_iff] at hmem
          rw [hmem] at hl
          exact Option.noConfusion hl
        rw [map_fst_setA _ hmem]
        exact h
    · rw [if_neg hred]
      exact ih acc h

theorem groupByCondition_keys_nodup (ps : List Position) :
    ((groupByCondition ps).map Prod.fst).Nodup :=
  groupBy_aux_keys ps [] (by simp)

theorem mem_keys_groupByCondition (ps : List Position) (c : String) :
    c ∈ (groupByCondition ps).map Prod.fst ↔
      ∃ p ∈ ps, p.redeemable = true ∧ p.conditionId = c := by
  constructor
  · intro h
    have hne : lookupA (groupByCondition ps) c ≠ none := by
      intro hn
      rw [lookupA_eq_none_iff] at hn
      exact hn h
    rw [lookupA_groupByCondition] at hne
    by_cases hg : groupOf ps c = []
    · simp [hg] at hne
    · obtain ⟨q, hq⟩ := List.exists_mem_of_ne_nil _ hg
      unfold groupOf at hq
      rw [List.mem_filter] at hq
      obtain ⟨hqm, hqp⟩ := hq
      simp only [Bool.and_eq_true, decide_eq_true_eq] at hqp
      exact ⟨q, hqm, hqp.1, hqp.2⟩
  · rintro ⟨p, hp, hred, hcond⟩
    have hg : p ∈ groupOf ps c := by
      unfold groupOf
      rw [List.mem_filter]
      exact ⟨hp, by simp [hred, hcond]⟩
    have hne : groupOf ps c ≠ [] := List.ne_nil_of_mem hg
    have hl := lookupA_groupByCondition ps c
    rw [if_neg hne] at hl
    by_contra hc
    rw [← lookupA_eq_none_iff] at hc
    rw [hc] at hl
    exact Option.noConfusion hl

theorem redeemPositions_map_cond (ps : List Position) :
    (redeemPositions ps).map RedeemTx.conditionId
      = (groupByCondition ps).map Prod.fst := by
  unfold redeemPositions
  rw [List.map_map]
  generalize groupByCondition ps = l
  induction l with
  | nil => rfl
  | cons g rest ih =>
    simp only [List.map_cons, ih]
    congr 1
    by_cases h : g.2.any (·.negativeRisk)
    · rw [Function.comp_apply, if_pos h]
      rfl
    · rw [Function.comp_apply, if_neg h]
      rfl

theorem negRiskFold_aux (l : List Position) :
    ∀ a b : ℤ,
      l.foldl
        (fun (a : ℤ × ℤ) pos =>
          if pos.outcomeIndex = 0 then
            (a.1 + toBaseUnits (.finite pos.size) 6, a.2)
          else (a.1, a.2 + toBaseUnits (.finite pos.size) 6))
        (a, b)
      = (a + ((l.filter (fun p => decide (p.outcomeIndex = 0))).map
            (fun p => toBaseUnits (.finite p.size) 6)).sum,
         b + ((l.filter (fun p => decide (¬ p.outcomeIndex = 0))).map
            (fun p => toBaseUnits (.finite p.size) 6)).sum) := by
  induction l with
  | nil => intro a b; simp
  | cons p rest ih =>
    intro a b
    rw [List.foldl_cons]
    by_cases h : p.outcomeIndex = 0
    · rw [if_pos h]
      rw [ih]
      simp [List.filter_cons, h, add_assoc]
    · rw [if_neg h]
      rw [ih]
      simp [List.filter_cons, h, add_assoc]

theorem buildNegRiskAmounts_eq (group : List Position) :
    buildNegRiskAmounts group
      = [((group.filter (fun p => decide (p.outcomeIndex = 0))).map
            (fun p => toBaseUnits (.finite p.size) 6)).sum,
         ((group.filter (fun p => decide (¬ p.outcomeIndex = 0))).map
            (fun p => toBaseUnits (.finite p.size) 6)).sum] := by
  unfold buildNegRiskAmounts
  rw [negRiskFold_aux]
  simp

/-! ## Claim theorems -/

/-- C1 (amended): in `CopyTrader.handleTrade`, every terminal branch reached
after the dedup check — unsizeable, rejected by either clamp stage, dry-run,
submitted successfully, or failed at submission — records the trade's
fingerprint in the seen-trades map exactly once; hence after `handleTrade`
returns, the fingerprint of a not-previously-seen trade whose side passes
the configured side filter is always present in `seenTrades`. (The
side-filter branch, which runs before the dedup check, returns without
marking the trade seen; see the counterexample.) -/
theorem handleTrade_marks_seen (cfg : Config) (env : ClobEnv)
    (ps : List Position) (day : String) (s : State) (trade : ActivityTrade)
    (h1 : shouldCopySide cfg trade = true)
    (h2 : lookupA s.seenTrades (tradeKey trade) = none) :
    lookupA (handleTrade cfg env ps day s trade).1.seenTrades
        (tradeKey trade) = some trade.timestamp ∧
    (handleTrade cfg env ps day s trade).1.seenTrades.countP
        (fun e => decide (e.1 = tradeKey trade)) = 1 := by
  have h2' : truthyNat (lookupA s.seenTrades (tradeKey trade)) = false := by
    rw [h2]
    rfl
  rw [handleTrade_seenTrades cfg env ps day s trade h1 h2']
  exact ⟨lookupA_setA_self _ _ _, countP_key_setA_of_none _ h2⟩

/-- C1 witness: the amended theorem applied to a concrete BUY trade that is
sized, clamped and submitted. -/
theorem handleTrade_marks_seen_witness :
    lookupA (handleTrade cfgPct envOk [] "d" defaultState
        tradeScn).1.seenTrades (tradeKey tradeScn)
      = some tradeScn.timestamp ∧
    (handleTrade cfgPct envOk [] "d" defaultState tradeScn).1.seenTrades.countP
        (fun e => decide (e.1 = tradeKey tradeScn)) = 1 :=
  handleTrade_marks_seen cfgPct envOk [] "d" defaultState tradeScn rfl rfl

/-- C1 counterexample: a not-previously-seen BUY trade under a SELL-only
side filter is filtered out and its fingerprint is NOT recorded in
`seenTrades` — the side-filter branch of `handleTrade` returns before
`noteSeenTrade` runs, so the original claim fails on this branch. -/
theorem handleTrade_filtered_not_marked :
    shouldCopySide cfgSellOnly tradeScn = false ∧
    lookupA defaultState.seenTrades (tradeKey tradeScn) = none ∧
    handleTrade cfgSellOnly envOk [] "d" defaultState tradeScn
      = (defaultState, Outcome.filtered) ∧
    lookupA (handleTrade cfgSellOnly envOk [] "d" defaultState
        tradeScn).1.seenTrades (tradeKey tradeScn) = none :=
  ⟨rfl, rfl, rfl, rfl⟩

/-- C2: under the `PERCENT_USD` strategy, for a trade with strictly positive
price and sizeable result, `computeSize` returns notional = trade notional
(`usdcSize`) × effective ratio and size = notional / price, where the
effective ratio is the per-trader override when one is configured for the
trade's lowercased trader address and the global `copyRatio` otherwise; in
particular price 0.40, size 100, notional 40, ratio 0.25 gives notional 10
and size 25. -/
theorem percentUsd_sizing (cfg : Config) (trade : ActivityTrade)
    (hstrat : cfg.copyStrategy = CopyStrategy.PERCENT_USD)
    (hp : 0 < trade.price)
    (hn : 0 < trade.usdcSize * effectiveRatio cfg trade.proxyWallet.toLower) :
    computeSize cfg trade = some
      ⟨trade.usdcSize * effectiveRatio cfg trade.proxyWallet.toLower
          / trade.price,
        trade.usdcSize * effectiveRatio cfg trade.proxyWallet.toLower⟩ ∧
    (∀ r, lookupA cfg.traderAllocations trade.proxyWallet.toLower = some r →
        effectiveRatio cfg trade.proxyWallet.toLower = r) ∧
    (lookupA cfg.traderAllocations trade.proxyWallet.toLower = none →
        effectiveRatio cfg trade.proxyWallet.toLower = cfg.copyRatio) ∧
    computeSize cfgPct tradeScn = some ⟨25, 10⟩ := by
  refine ⟨?_, ?_, ?_, by
    norm_num [computeSize, cfgPct, tradeScn, effectiveRatio, lookupA,
      isPositive, Sized.mk.injEq]⟩
  · have hp' : isPositive trade.price = true := isPositive_eq_true.mpr hp
    have hn' : isPositive
        (trade.usdcSize * effectiveRatio cfg trade.proxyWallet.toLower)
        = true := isPositive_eq_true.mpr hn
    have hsz : isPositive
        (trade.usdcSize * effectiveRatio cfg trade.proxyWallet.toLower
          / trade.price) = true :=
      isPositive_eq_true.mpr (div_pos hn hp)
    simp [computeSize, hstrat, hp', hn', hsz]
  · intro r hr
    simp [effectiveRatio, hr]
  · intro hr
    simp [effectiveRatio, hr]

/-- C2 witness: the theorem applied to the spec's scenario trade under
`cfgPct`. -/
theorem percentUsd_sizing_witness :
    computeSize cfgPct tradeScn = some
      ⟨tradeScn.usdcSize * effectiveRatio cfgPct tradeScn.proxyWallet.toLower
          / tradeScn.price,
        tradeScn.usdcSize
          * effectiveRatio cfgPct tradeScn.proxyWallet.toLower⟩ ∧
    (∀ r, lookupA cfgPct.traderAllocations tradeScn.proxyWallet.toLower
          = some r →
        effectiveRatio cfgPct tradeScn.proxyWallet.toLower = r) ∧
    (lookupA cfgPct.traderAllocations tradeScn.proxyWallet.toLower = none →
        effectiveRatio cfgPct tradeScn.proxyWallet.toLower
          = cfgPct.copyRatio) ∧
    computeSize cfgPct tradeScn = some ⟨25, 10⟩ :=
  percentUsd_sizing cfgPct tradeScn rfl (by norm_num [tradeScn])
    (by norm_num [tradeScn, cfgPct, effectiveRatio, lookupA])

/-- C9: `toBaseUnits` is total and returns a non-negative integer: a
non-finite amount (NaN or ±Infinity) yields 0, a non-positive amount is
clamped to 0, and a finite positive amount yields
round(amount × 10 ^ decimals), JS rounding (half toward +∞). -/
theorem toBaseUnits_safe :
    (∀ a d, 0 ≤ toBaseUnits a d) ∧
    (∀ d, toBaseUnits JsNum.nan d = 0 ∧ toBaseUnits JsNum.inf d = 0 ∧
        toBaseUnits JsNum.negInf d = 0) ∧
    (∀ q d, q ≤ 0 → toBaseUnits (JsNum.finite q) d = 0) ∧
    (∀ q d, 0 < q →
        toBaseUnits (JsNum.finite q) d = jsRound (q * 10 ^ d)) := by
  refine ⟨?_, ?_, ?_, ?_⟩
  · intro a d
    cases a <;> simp [toBaseUnits, JsNum.isFinite, le_max_left]
  · intro d
    exact ⟨rfl, rfl, rfl⟩
  · intro q d hq
    simp only [toBaseUnits, JsNum.isFinite, Bool.not_true, if_false,
      not_true, ite_false]
    have h10 : (0 : ℚ) < 10 ^ d := by positivity
    have hr : jsRound (q * 10 ^ d) ≤ 0 := by
      unfold jsRound
      have hlt : q * 10 ^ d + 1 / 2 < 1 := by nlinarith
      have := Int.floor_lt.mpr (by push_cast; linarith : q * 10 ^ d + 1 / 2 < ((1 : ℤ) : ℚ))
      omega
    simp [max_eq_left hr]
  · intro q d hq
    simp only [toBaseUnits, JsNum.isFinite, Bool.not_true, if_false,
      not_true, ite_false]
    have h10 : (0 : ℚ) < 10 ^ d := by positivity
    have hr : (0 : ℤ) ≤ jsRound (q * 10 ^ d) := by
      unfold jsRound
      exact Int.floor_nonneg.mpr (by nlinarith)
    simp [max_eq_right hr]

/-- C4: the daily-volume clamp stage (the BUY-only block of
`clampToLimits`) applies only to BUY candidates — a SELL candidate passes
through unchanged; for a BUY candidate it first ensures the daily counter
reflects the current UTC day (reset if stale) before reading it, computes
remaining = dailyCap − spentSoFar, rejects when remaining ≤ 0, and when
notional > remaining shrinks the notional to remaining with size
notional/price, rejecting if the shrunken notional is below the trade
minimum; a BUY candidate with notional 50, daily cap 30 and spent 25 is
shrunk to notional 5, and rejected when the trade minimum is 10. -/
theorem dailyVolume_stage_spec :
    (∀ (cfg : Config) (s : State) (day : String) (sn : Sized) (price : ℚ),
        dailyVolumeStage cfg s day Side.SELL sn price = (some sn, s)) ∧
    (∀ (cfg : Config) (s : State) (day : String) (sn : Sized) (price : ℚ),
        s.dailyVolume.day ≠ day →
        dailyVolumeStage cfg s day Side.BUY sn price
          = dailyVolumeStage cfg { s with dailyVolume := ⟨day, 0⟩ } day
              Side.BUY sn price) ∧
    (∀ (cfg : Config) (s : State) (day : String) (sn : Sized) (price : ℚ),
        cfg.maxDailyVolumeUsd
            - (ensureDailyVolume s day).dailyVolume.spentUsd ≤ 0 →
        dailyVolumeStage cfg s day Side.BUY sn price
          = (none, ensureDailyVolume s day)) ∧
    (∀ (cfg : Config) (s : State) (day : String) (sn : Sized) (price : ℚ),
        0 < cfg.maxDailyVolumeUsd
            - (ensureDailyVolume s day).dailyVolume.spentUsd →
        cfg.maxDailyVolumeUsd
            - (ensureDailyVolume s day).dailyVolume.spentUsd < sn.notional →
        dailyVolumeStage cfg s day Side.BUY sn price
          = (if cfg.maxDailyVolumeUsd
                  - (ensureDailyVolume s day).dailyVolume.spentUsd
                  < cfg.minTradeUsd
              then none
              else some ⟨(cfg.maxDailyVolumeUsd
                    - (ensureDailyVolume s day).dailyVolume.spentUsd) / price,
                  cfg.maxDailyVolumeUsd
                    - (ensureDailyVolume s day).dailyVolume.spentUsd⟩,
            ensureDailyVolume s day)) ∧
    dailyVolumeStage cfgDailyMin10 stateSpent25 "d" Side.BUY ⟨125, 50⟩ (2/5)
      = (none, stateSpent25) ∧
    dailyVolumeStage cfgDailyMin1 stateSpent25 "d" Side.BUY ⟨125, 50⟩ (2/5)
      = (some ⟨25/2, 5⟩, stateSpent25) := by
  refine ⟨fun cfg s day sn price => rfl, ?_, ?_, ?_, ?_, ?_⟩
  · intro cfg s day sn price h
    have he : ensureDailyVolume s day
        = { s with dailyVolume := ⟨day, 0⟩ } := by
      simp [ensureDailyVolume, h]
    have he2 : ensureDailyVolume { s with dailyVolume := ⟨day, 0⟩ } day
        = { s with dailyVolume := (⟨day, 0⟩ : DailyVolume) } := by
      simp [ensureDailyVolume]
    simp only [dailyVolumeStage, he, he2]
  · intro cfg s day sn price h
    simp only [dailyVolumeStage]
    rw [if_pos h]
  · intro cfg s day sn price h1 h2
    simp only [dailyVolumeStage]
    rw [if_neg (not_le.mpr h1), if_pos h2]
    split_ifs <;> rfl
  · norm_num [dailyVolumeStage, cfgDailyMin10, cfgPct, stateSpent25,
      defaultState, ensureDailyVolume]
  · norm_num [dailyVolumeStage, cfgDailyMin1, cfgPct, stateSpent25,
      defaultState, ensureDailyVolume, Sized.mk.injEq]

/-- C5: for a SELL candidate, `clampToPosition` rejects when there is no
position for the target token or the held size is ≤ 0; when the candidate
size exceeds the held size it clamps the size to the held size and
recomputes notional = size × trade price, rejecting if the recomputed
notional is below the trade minimum, and passes the candidate through
otherwise; a SELL candidate of size 80 against a held position of size 50
is clamped to size 50 with notional recomputed at the trade price. -/
theorem sell_position_clamp :
    (∀ (cfg : Config) (ps : List Position) (tok : String)
        (size notional price : ℚ),
        getPositionByToken ps tok = none →
        clampToPosition cfg ps Side.SELL tok size notional price = none) ∧
    (∀ (cfg : Config) (ps : List Position) (tok : String)
        (size notional price : ℚ) (pos : Position),
        getPositionByToken ps tok = some pos → pos.size ≤ 0 →
        clampToPosition cfg ps Side.SELL tok size notional price = none) ∧
    (∀ (cfg : Config) (ps : List Position) (tok : String)
        (size notional price : ℚ) (pos : Position),
        getPositionByToken ps tok = some pos → 0 < pos.size →
        pos.size < size →
        clampToPosition cfg ps Side.SELL tok size notional price
          = (if pos.size * price < cfg.minTradeUsd then none
              else some ⟨pos.size, pos.size * price⟩)) ∧
    (∀ (cfg : Config) (ps : List Position) (tok : String)
        (size notional price : ℚ) (pos : Position),
        getPositionByToken ps tok = some pos → 0 < pos.size →
        size ≤ pos.size →
        clampToPosition cfg ps Side.SELL tok size notional price
          = some ⟨size, notional⟩) ∧
    clampToPosition cfgPct [heldPos] Side.SELL "tok" 80 32 (2/5)
      = some ⟨50, 20⟩ := by
  refine ⟨?_, ?_, ?_, ?_, ?_⟩
  · intro cfg ps tok size notional price h
    simp only [clampToPosition]
    rw [h]
  · intro cfg ps tok size notional price pos h hsz
    simp only [clampToPosition]
    rw [h]
    simp only [if_pos hsz]
  · intro cfg ps tok size notional price pos h hsz hgt
    simp only [clampToPosition]
    rw [h]
    dsimp only
    rw [if_neg (not_le.mpr hsz), if_pos hgt]
  · intro cfg ps tok size notional price pos h hsz hle
    simp only [clampToPosition]
    rw [h]
    dsimp only
    rw [if_neg (not_le.mpr hsz), if_neg (not_lt.mpr hle)]
  · norm_num [clampToPosition, getPositionByToken, heldPos, cfgPct,
      List.find?, Sized.mk.injEq]

/-- C7 (amended): after a poll processes a nonempty batch of trades for a
trader, that trader's cursor equals the maximum of its previous value
(0 when absent) and the maximum trade timestamp in the batch, regardless of
each trade's outcome, so the cursor is monotonically non-decreasing per
trader; the next poll's lower time bound is cursor + 1 when a cursor exists
with a nonzero value, and now − lookback otherwise — a stored cursor of 0
falls to the lookback branch by the JS truthiness test (see the
counterexample). -/
theorem cursor_advancement :
    (∀ (cfg : Config) (env : ClobEnv) (ps : List Position) (day : String)
        (trader : String) (trades : List ActivityTrade) (s : State),
        trades ≠ [] →
        lookupA (processBatch cfg env ps day s trader trades).lastSeen trader
          = some (max ((lookupA s.lastSeen trader).getD 0)
              (batchMaxTs trades))) ∧
    (∀ (cfg : Config) (env : ClobEnv) (ps : List Position) (day : String)
        (trader : String) (trades : List ActivityTrade) (s : State) (c : ℕ),
        lookupA s.lastSeen trader = some c →
        c ≤ (lookupA (processBatch cfg env ps day s trader
            trades).lastSeen trader).getD 0) ∧
    (∀ (s : State) (trader : String) (now lookback : ℕ) (c : ℕ),
        lookupA s.lastSeen trader = some c → c ≠ 0 →
        pollStart s trader now lookback = (c : ℤ) + 1) ∧
    (∀ (s : State) (trader : String) (now lookback : ℕ),
        lookupA s.lastSeen trader = none →
        pollStart s trader now lookback = (now : ℤ) - lookback) := by
  refine ⟨?_, ?_, ?_, ?_⟩
  · intro cfg env ps day trader trades s h
    exact processBatch_cursor cfg env ps day trader trades h s
  · intro cfg env ps day trader trades s c hc
    cases trades with
    | nil =>
      show c ≤ (lookupA s.lastSeen trader).getD 0
      rw [hc]
      exact le_refl c
    | cons t rest =>
      rw [processBatch_cursor cfg env ps day trader (t :: rest)
        (by simp) s]
      rw [hc]
      exact le_max_left _ _
  · intro s trader now lookback c hc hne
    unfold pollStart
    rw [hc]
    simp [hne]
  · intro s trader now lookback hc
    unfold pollStart
    rw [hc]

/-- C7 counterexample: a state in which trader `"t"` has a stored cursor
(of value 0); the claim as stated says the next lower bound is cursor + 1
whenever a cursor exists, but `runOnce` tests `last ? last + 1 : ...`, so
the bound is now − lookback (= 70 here), not 0 + 1. -/
theorem pollStart_zero_cursor :
    lookupA stateCursorZero.lastSeen "t" = some 0 ∧
    pollStart stateCursorZero "t" 100 30 = 70 ∧
    pollStart stateCursorZero "t" 100 30 ≠ (0 : ℤ) + 1 := by
  refine ⟨rfl, rfl, by decide⟩


/-- C3: clamp monotonicity — a candidate that passes a clamp stage leaves it
with output notional ≤ input notional (each stage passes the candidate
unchanged, shrinks it, or rejects it), and a candidate rejected by an
earlier stage is never processed by a later stage: `clampToLimits` is the
trade-bound stage followed by the daily-volume stage (which a trade-bound
rejection short-circuits, leaving the state untouched), and a
`clampToLimits` rejection makes `handleTrade` independent of the position
data the position-exposure stage would read. -/
theorem clamp_monotone_ordered :
    (∀ (cfg : Config) (size notional price : ℚ) (out : Sized),
        tradeBoundStage cfg size notional price = some out →
        out.notional ≤ notional) ∧
    (∀ (cfg : Config) (s : State) (day : String) (side : Side) (sn : Sized)
        (price : ℚ) (out : Sized) (s' : State),
        dailyVolumeStage cfg s day side sn price = (some out, s') →
        out.notional ≤ sn.notional) ∧
    (∀ (cfg : Config) (ps : List Position) (side : Side) (tok : String)
        (size notional price : ℚ) (out : Sized),
        0 ≤ price → notional = size * price →
        clampToPosition cfg ps side tok size notional price = some out →
        out.notional ≤ notional) ∧
    (∀ (cfg : Config) (s : State) (day : String) (side : Side) (sz n p : ℚ),
        tradeBoundStage cfg sz n p = none →
        clampToLimits cfg s day side sz n p = (none, s)) ∧
    (∀ (cfg : Config) (s : State) (day : String) (side : Side) (sz n p : ℚ)
        (sn : Sized),
        tradeBoundStage cfg sz n p = some sn →
        clampToLimits cfg s day side sz n p
          = dailyVolumeStage cfg s day side sn p) ∧
    (∀ (cfg : Config) (env : ClobEnv) (ps ps' : List Position) (day : String)
        (s : State) (trade : ActivityTrade) (c : Sized) (s1 : State),
        computeSize cfg trade = some c →
        clampToLimits cfg s day trade.side c.size c.notional trade.price
          = (none, s1) →
        handleTrade cfg env ps day s trade
          = handleTrade cfg env ps' day s trade) := by
  refine ⟨?_, ?_, ?_, ?_, ?_, ?_⟩
  · intro cfg size notional price out h
    unfold tradeBoundStage at h
    dsimp only at h
    split_ifs at h <;>
      first
        | exact Option.noConfusion h
        | (obtain rfl := Option.some.inj h; try dsimp only; linarith)
  · intro cfg s day side sn price out s' h
    cases side with
    | SELL =>
      simp only [dailyVolumeStage] at h
      injection h with h1 h2
      obtain rfl := Option.some.inj h1
      exact le_refl _
    | BUY =>
      simp only [dailyVolumeStage] at h
      try dsimp only at h
      split_ifs at h <;> injection h with h1 h2 <;>
        first
          | exact Option.noConfusion h1
          | (rw [Option.some.injEq] at h1; rw [← h1]; try linarith)
  · intro cfg ps side tok size notional price out hprice hn h
    cases side with
    | BUY =>
      simp only [clampToPosition] at h
      try dsimp only at h
      split_ifs at h <;>
        first
          | exact Option.noConfusion h
          | (obtain rfl := Option.some.inj h; dsimp only; linarith)
    | SELL =>
      simp only [clampToPosition] at h
      rcases hpos : getPositionByToken ps tok with _ | pos <;> rw [hpos] at h
      · exact Option.noConfusion h
      · dsimp only at h
        split_ifs at h with hsz hgt hmin <;>
          first
            | exact Option.noConfusion h
            | (obtain rfl := Option.some.inj h; try dsimp only; try linarith)
        have hmul : pos.size * price ≤ size * price :=
          mul_le_mul_of_nonneg_right (le_of_lt hgt) hprice
        rw [hn]
        linarith
  · intro cfg s day side sz n p h
    exact clampToLimits_of_tradeBound_none cfg s day side h
  · intro cfg s day side sz n p sn h
    exact clampToLimits_of_tradeBound_some cfg s day side h
  · intro cfg env ps ps' day s trade c s1 hc hcl
    by_cases h1 : shouldCopySide cfg trade
    · by_cases h2 : truthyNat (lookupA s.seenTrades (tradeKey trade))
      · simp [handleTrade, h1, h2]
      · simp [handleTrade, h1, h2, hc, hcl]
    · simp [handleTrade, h1]


/-- C6: `RedeemService.redeemPositions` groups (redeemable) positions by
market condition id and builds exactly one settlement instruction per
group — the instruction condition ids are distinct, and an id appears iff
some redeemable input position carries it; a group any member of which is
flagged negative-risk yields one combinatorial instruction whose amounts
bucket outcome index 0 and the other outcome indices separately, each
converted to 6-decimal integer base units, and any other group yields one
standard (outcome-index-agnostic) instruction; two negative-risk positions
sharing a condition id with outcome 0 size 10 and outcome 1 size 5 yield
one combinatorial instruction with amounts [10000000, 5000000]. -/
theorem redeem_batching_spec :
    (∀ ps : List Position,
        ((redeemPositions ps).map RedeemTx.conditionId).Nodup) ∧
    (∀ (ps : List Position) (c : String),
        c ∈ (redeemPositions ps).map RedeemTx.conditionId ↔
          ∃ p ∈ ps, p.redeemable = true ∧ p.conditionId = c) ∧
    (∀ (ps : List Position) (c : String) (g : List Position),
        lookupA (groupByCondition ps) c = some g →
        g = groupOf ps c ∧
        (g.any (·.negativeRisk) = true →
            RedeemTx.negRisk c (buildNegRiskAmounts g)
              ∈ redeemPositions ps) ∧
        (g.any (·.negativeRisk) = false →
            RedeemTx.ctf c ∈ redeemPositions ps)) ∧
    (∀ g : List Position,
        buildNegRiskAmounts g
          = [((g.filter (fun p => decide (p.outcomeIndex = 0))).map
                (fun p => toBaseUnits (.finite p.size) 6)).sum,
             ((g.filter (fun p => decide (¬ p.outcomeIndex = 0))).map
                (fun p => toBaseUnits (.finite p.size) 6)).sum]) ∧
    redeemPositions [negPos0, negPos1]
      = [RedeemTx.negRisk "c" [10000000, 5000000]] := by
  refine ⟨?_, ?_, ?_, buildNegRiskAmounts_eq, ?_⟩
  · intro ps
    rw [redeemPositions_map_cond]
    exact groupByCondition_keys_nodup ps
  · intro ps c
    rw [redeemPositions_map_cond]
    exact mem_keys_groupByCondition ps c
  · intro ps c g hl
    have hg : g = groupOf ps c := by
      rw [lookupA_groupByCondition] at hl
      by_cases he : groupOf ps c = []
      · rw [if_pos he] at hl
        exact Option.noConfusion hl
      · rw [if_neg he] at hl
        exact (Option.some.inj hl).symm
    have hmem : (c, g) ∈ groupByCondition ps := lookupA_mem hl
    have h2 := List.mem_map_of_mem
      (fun g => if g.2.any (·.negativeRisk) then
          RedeemTx.negRisk g.1 (buildNegRiskAmounts g.2)
        else RedeemTx.ctf g.1) hmem
    dsimp only at h2
    refine ⟨hg, ?_, ?_⟩
    · intro ha
      rw [if_pos ha] at h2
      exact h2
    · intro ha
      rw [if_neg (by rw [ha]; exact Bool.false_ne_true)] at h2
      exact h2
  · norm_num [redeemPositions, groupByCondition, lookupA, setA, negPos0,
      negPos1, buildNegRiskAmounts, toBaseUnits, JsNum.isFinite, jsRound,
      List.find?]


/-- C8: execution-failure atomicity — when order submission throws, the
trade is still marked seen and the daily-volume counter is left exactly as
the clamp stages left it; the counter is increased by the order notional
only on the success branch and only for BUY-side orders; and a trade whose
submission failed is never retried: feeding it to `handleTrade` again stops
at the dedup check with the state unchanged. -/
theorem exec_failure_atomicity (cfg : Config) (env : ClobEnv)
    (ps : List Position) (day : String) (s : State) (trade : ActivityTrade)
    (c cl pc : Sized) (s1 : State) (m : String)
    (h1 : shouldCopySide cfg trade = true)
    (h2 : lookupA s.seenTrades (tradeKey trade) = none)
    (hc : computeSize cfg trade = some c)
    (hcl : clampToLimits cfg s day trade.side c.size c.notional trade.price
      = (some cl, s1))
    (hcp : clampToPosition cfg ps trade.side trade.asset cl.size cl.notional
      trade.price = some pc)
    (hdry : cfg.dryRun = false)
    (hmin : ¬ pc.size < env.meta.minOrderSize)
    (hpost : env.post = Except.error m)
    (hts : trade.timestamp ≠ 0) :
    handleTrade cfg env ps day s trade
      = (noteSeenTrade s1 (tradeKey trade) trade.timestamp,
        Outcome.orderFailed m) ∧
    (handleTrade cfg env ps day s trade).1.dailyVolume = s1.dailyVolume ∧
    lookupA (handleTrade cfg env ps day s trade).1.seenTrades
        (tradeKey trade) = some trade.timestamp ∧
    (∀ (env2 : ClobEnv) (ps2 : List Position) (day2 : String),
        handleTrade cfg env2 ps2 day2
            (handleTrade cfg env ps day s trade).1 trade
          = ((handleTrade cfg env ps day s trade).1,
            Outcome.alreadySeen)) ∧
    (∀ env2 : ClobEnv, env2.post = Except.ok () → env2.meta = env.meta →
        trade.side = Side.BUY →
        (handleTrade cfg env2 ps day s trade).1.dailyVolume.spentUsd
          = (ensureDailyVolume s1 day).dailyVolume.spentUsd + pc.notional) ∧
    (∀ env2 : ClobEnv, env2.post = Except.ok () → env2.meta = env.meta →
        trade.side = Side.SELL →
        (handleTrade cfg env2 ps day s trade).1.dailyVolume
          = s1.dailyVolume) := by
  have h2' : truthyNat (lookupA s.seenTrades (tradeKey trade)) = false := by
    rw [h2]
    rfl
  have hpl : placeLimitOrder env pc.size = Except.error m := by
    unfold placeLimitOrder
    rw [if_neg hmin, hpost]
  have hmain : handleTrade cfg env ps day s trade
      = (noteSeenTrade s1 (tradeKey trade) trade.timestamp,
        Outcome.orderFailed m) := by
    simp [handleTrade, h1, h2', hc, hcl, hcp, hdry, hpl]
  refine ⟨hmain, ?_, ?_, ?_, ?_, ?_⟩
  · rw [hmain]
    rfl
  · rw [hmain]
    simp [noteSeenTrade, lookupA_setA_self]
  · intro env2 ps2 day2
    rw [hmain]
    dsimp only
    have hseen2 : truthyNat (lookupA
        (noteSeenTrade s1 (tradeKey trade) trade.timestamp).seenTrades
        (tradeKey trade)) = true := by
      simp [noteSeenTrade, lookupA_setA_self, truthyNat, hts]
    simp [handleTrade, h1, hseen2]
  · intro env2 hok hmeta hbuy
    rw [hbuy] at hcl hcp
    have hpl2 : placeLimitOrder env2 pc.size = Except.ok true := by
      unfold placeLimitOrder
      rw [hmeta, if_neg hmin, hok]
    simp [handleTrade, h1, h2', hc, hcl, hcp, hdry, hpl2, hbuy,
      noteSeenTrade]
  · intro env2 hok hmeta hsell
    rw [hsell] at hcl hcp
    have hpl2 : placeLimitOrder env2 pc.size = Except.ok true := by
      unfold placeLimitOrder
      rw [hmeta, if_neg hmin, hok]
    simp [handleTrade, h1, h2', hc, hcl, hcp, hdry, hpl2, hsell,
      noteSeenTrade]

/-- C8 witness: the theorem at a concrete BUY trade whose submission the
venue rejects with a balance error. -/
theorem exec_failure_atomicity_witness :
    handleTrade cfgPct envFail [] "d" stateDayD tradeScn
      = (noteSeenTrade stateDayD (tradeKey tradeScn) tradeScn.timestamp,
        Outcome.orderFailed "not enough balance") ∧
    (handleTrade cfgPct envFail [] "d" stateDayD
        tradeScn).1.dailyVolume = stateDayD.dailyVolume ∧
    lookupA (handleTrade cfgPct envFail [] "d" stateDayD
        tradeScn).1.seenTrades (tradeKey tradeScn)
      = some tradeScn.timestamp ∧
    (∀ (env2 : ClobEnv) (ps2 : List Position) (day2 : String),
        handleTrade cfgPct env2 ps2 day2
            (handleTrade cfgPct envFail [] "d" stateDayD tradeScn).1
            tradeScn
          = ((handleTrade cfgPct envFail [] "d" stateDayD tradeScn).1,
            Outcome.alreadySeen)) ∧
    (∀ env2 : ClobEnv, env2.post = Except.ok () →
        env2.meta = envFail.meta → tradeScn.side = Side.BUY →
        (handleTrade cfgPct env2 [] "d" stateDayD
            tradeScn).1.dailyVolume.spentUsd
          = (ensureDailyVolume stateDayD "d").dailyVolume.spentUsd
            + (Sized.mk 25 10).notional) ∧
    (∀ env2 : ClobEnv, env2.post = Except.ok () →
        env2.meta = envFail.meta → tradeScn.side = Side.SELL →
        (handleTrade cfgPct env2 [] "d" stateDayD
            tradeScn).1.dailyVolume = stateDayD.dailyVolume) :=
  exec_failure_atomicity cfgPct envFail [] "d" stateDayD tradeScn
    ⟨25, 10⟩ ⟨25, 10⟩ ⟨25, 10⟩ stateDayD "not enough balance"
    rfl rfl
    (by norm_num [computeSize, cfgPct, tradeScn, effectiveRatio, lookupA,
      isPositive, Sized.mk.injEq])
    (by norm_num [clampToLimits, cfgPct, tradeScn, stateDayD, stateDayD,
      ensureDailyVolume, isPositive, Sized.mk.injEq, Prod.ext_iff,
      State.mk.injEq, DailyVolume.mk.injEq])
    (by norm_num [clampToPosition, cfgPct, tradeScn, getPositionByToken,
      Sized.mk.injEq])
    rfl
    (by norm_num [envFail])
    rfl
    (by norm_num [tradeScn])


/-- C10: when a clamped order's size is below the venue's minimum order
size for the token, `placeLimitOrder` returns successfully without posting
any order, and the caller's success branch still runs — for a BUY trade the
daily-volume counter is increased by the full clamped notional and the
trade is marked seen even though no order was placed. -/
theorem below_min_order_success (cfg : Config) (env : ClobEnv)
    (ps : List Position) (day : String) (s : State) (trade : ActivityTrade)
    (c cl pc : Sized) (s1 : State)
    (h1 : shouldCopySide cfg trade = true)
    (h2 : lookupA s.seenTrades (tradeKey trade) = none)
    (hc : computeSize cfg trade = some c)
    (hcl : clampToLimits cfg s day trade.side c.size c.notional trade.price
      = (some cl, s1))
    (hcp : clampToPosition cfg ps trade.side trade.asset cl.size cl.notional
      trade.price = some pc)
    (hdry : cfg.dryRun = false)
    (hsz : pc.size < env.meta.minOrderSize)
    (hbuy : trade.side = Side.BUY) :
    placeLimitOrder env pc.size = Except.ok false ∧
    (handleTrade cfg env ps day s trade).2 = Outcome.orderPlaced false ∧
    (handleTrade cfg env ps day s trade).1.dailyVolume.spentUsd
      = (ensureDailyVolume s1 day).dailyVolume.spentUsd + pc.notional ∧
    lookupA (handleTrade cfg env ps day s trade).1.seenTrades
        (tradeKey trade) = some trade.timestamp := by
  have h2' : truthyNat (lookupA s.seenTrades (tradeKey trade)) = false := by
    rw [h2]
    rfl
  have hpl : placeLimitOrder env pc.size = Except.ok false := by
    unfold placeLimitOrder
    rw [if_pos hsz]
  rw [hbuy] at hcl hcp
  refine ⟨hpl, ?_, ?_, ?_⟩
  · simp [handleTrade, h1, h2', hc, hcl, hcp, hdry, hpl, hbuy,
      noteSeenTrade]
  · simp [handleTrade, h1, h2', hc, hcl, hcp, hdry, hpl, hbuy,
      noteSeenTrade]
  · simp [handleTrade, h1, h2', hc, hcl, hcp, hdry, hpl, hbuy,
      noteSeenTrade, lookupA_setA_self]

/-- C10 witness: the theorem at a concrete BUY trade whose clamped size 25
is below the venue minimum order size 1000. -/
theorem below_min_order_success_witness :
    placeLimitOrder envMinSz (Sized.mk 25 10).size = Except.ok false ∧
    (handleTrade cfgPct envMinSz [] "d" stateDayD tradeScn).2
      = Outcome.orderPlaced false ∧
    (handleTrade cfgPct envMinSz [] "d" stateDayD
        tradeScn).1.dailyVolume.spentUsd
      = (ensureDailyVolume stateDayD "d").dailyVolume.spentUsd
        + (Sized.mk 25 10).notional ∧
    lookupA (handleTrade cfgPct envMinSz [] "d" stateDayD
        tradeScn).1.seenTrades (tradeKey tradeScn)
      = some tradeScn.timestamp :=
  below_min_order_success cfgPct envMinSz [] "d" stateDayD tradeScn
    ⟨25, 10⟩ ⟨25, 10⟩ ⟨25, 10⟩ stateDayD
    rfl rfl
    (by norm_num [computeSize, cfgPct, tradeScn, effectiveRatio, lookupA,
      isPositive, Sized.mk.injEq])
    (by norm_num [clampToLimits, cfgPct, tradeScn, stateDayD, defaultState,
      ensureDailyVolume, isPositive, Sized.mk.injEq, Prod.ext_iff,
      State.mk.injEq, DailyVolume.mk.injEq])
    (by norm_num [clampToPosition, cfgPct, tradeScn, getPositionByToken,
      Sized.mk.injEq])
    rfl
    (by norm_num [envMinSz])
    rfl


end Bot
